import Mathlib

/-!
Shallow embedding of `server.py` (Distributed-MD5-Cracker): the
coordinator's global mutable state, the per-message branches of
`handle_client`, the disconnect cleanup, the stop broadcast
`notify_all_clients`, and the newline framing loop.  Python integers are
unbounded, so all numeric fields are modelled as `Int`; connections are
identified by opaque `Nat` handles.
-/

/-- The fixed target digest `TARGET_HASH` of `server.py` (the source
applies `.upper()` to an already-uppercase literal, a no-op). -/
def TARGET_HASH : String := "EC9C0F7EDCC18A98B1F31853B1813301"

/-- Constant `START_NUMBER = 0` of `server.py`. -/
def START_NUMBER : Int := 0

/-- Constant `END_NUMBER = 1 * 10**10 - 1` of `server.py`, the inclusive
upper bound of the search range. -/
def END_NUMBER : Int := 1 * 10 ^ 10 - 1

/-- Constant `BLOCK_SIZE_PER_CORE = 100000` of `server.py`. -/
def BLOCK_SIZE_PER_CORE : Int := 100000

/-- A work block dictionary `\x7b'start': ..., 'end': ...\x7d` as stored in
`assigned_work`.  The key `end` is a reserved word in Lean, so that field
is named `endN`. -/
structure WorkBlock where
  start : Int
  endN : Int
  deriving DecidableEq

/-- A decoded JSON value, as produced by `json.loads`.  (JSON number
literals are modelled as integers, as the protocol declares the numeric
fields `cores` and `number`.) -/
inductive JVal where
  | jnull
  | jbool (b : Bool)
  | jnum (n : Int)
  | jstr (s : String)
  | jarr (xs : List JVal)
  | jobj (fields : List (String × JVal))

/-- The coordinator's global mutable state in `server.py`:
`current_number`, `found`, `found_number`, the ordered list `clients`
built by `clients.append`, and the dictionary `assigned_work` keyed by
connection handle.  A `clients` entry stores whatever `cores` value the
`register` message carried (Python stores the raw value). -/
structure ServerState where
  current_number : Int
  found : Bool
  found_number : Option Int
  clients : List (Nat × JVal)
  assigned_work : Nat → Option WorkBlock

/-- The global state of `server.py` at startup. -/
def initialState : ServerState :=
  { current_number := START_NUMBER
    found := false
    found_number := none
    clients := []
    assigned_work := fun _ => none }

/-- Outbound coordinator messages: `stop`, `no_work`, and `work` (which
carries the block bounds and the target digest). -/
inductive Response where
  | stop
  | no_work
  | work (start : Int) (endN : Int) (target_hash : String)
  deriving DecidableEq

/-- The idiom `if conn in assigned_work: assigned_work.pop(conn)` of
`handle_client`: remove the entry for `conn`, if any. -/
def popAssigned (t : Nat → Option WorkBlock) (conn : Nat) :
    Nat → Option WorkBlock :=
  fun c => if c = conn then none else t c

/-- The `request_work` branch of `handle_client`: pop any prior entry for
`conn`; reply `stop` if `found`; otherwise either reply `no_work` when the
cursor is past `END_NUMBER` (cursor unchanged) or hand out the block
`[start, end]` with `start = current_number`,
`end = min(current_number + BLOCK_SIZE_PER_CORE * client_cores - 1,
END_NUMBER)`, advancing the cursor to `end + 1` and recording the block in
`assigned_work[conn]`. -/
def request_work (s : ServerState) (conn : Nat) (client_cores : Int) :
    ServerState × Response :=
  let s1 := { s with assigned_work := popAssigned s.assigned_work conn }
  if s1.found then (s1, .stop)
  else
    let block_size := BLOCK_SIZE_PER_CORE * client_cores
    let start := s1.current_number
    let endn := min (s1.current_number + block_size - 1) END_NUMBER
    if start > END_NUMBER then (s1, .no_work)
    else
      ({ s1 with
          current_number := endn + 1
          assigned_work :=
            fun c => if c = conn then some ⟨start, endn⟩ else s1.assigned_work c },
        .work start endn TARGET_HASH)

/-- The locked section of the `found` branch of `handle_client`, viewed as
the coordinator operation `record_found`: pop `conn`'s outstanding block
and, if `found` is still false, set `found = true` and
`found_number = number`.  The returned boolean reports whether this call
flipped `found` (the branch `if not found:` was taken). -/
def record_found (s : ServerState) (conn : Nat) (number : Int) :
    ServerState × Bool :=
  let s1 := { s with assigned_work := popAssigned s.assigned_work conn }
  if s1.found then (s1, false)
  else ({ s1 with found := true, found_number := some number }, true)

/-- Point-in-time read of the `found` flag. -/
def is_found (s : ServerState) : Bool := s.found

/-- The `register` branch of `handle_client`:
`clients.append(\x7b'conn': conn, 'cores': cores\x7d)`, storing the raw
`cores` value of the message.  (The session also overwrites its local
`client_cores` variable, handled at the session layer.) -/
def register (s : ServerState) (conn : Nat) (cores : JVal) : ServerState :=
  { s with clients := s.clients ++ [(conn, cores)] }

/-- `notify_all_clients` of `server.py`: send a `stop` frame to every
entry of `clients`, best effort.  Modelled as the list of
(connection, message) sends it performs, in order. -/
def notify_all_clients (s : ServerState) : List (Nat × Response) :=
  s.clients.map (fun c => (c.1, Response.stop))

/-- The `finally` cleanup of `handle_client`, run on disconnect or on an
uncaught exception: if `conn` holds a block, remove it and set
`current_number = work['start']` (an unconditional assignment in the
source), then filter `conn` out of `clients`. -/
def disconnect_cleanup (s : ServerState) (conn : Nat) : ServerState :=
  let s1 :=
    match s.assigned_work conn with
    | some w =>
        { s with
            assigned_work := popAssigned s.assigned_work conn
            current_number := w.start }
    | none => s
  { s1 with clients := s1.clients.filter (fun c => c.1 ≠ conn) }

/-- Dictionary subscripting `message[k]`: `none` models the exception
Python raises when the key is missing or the value is not a dict. -/
def jlookup (v : JVal) (k : String) : Option JVal :=
  match v with
  | .jobj fields =>
      match fields.find? (fun p => p.1 == k) with
      | some p => some p.2
      | none => none
  | _ => none

/-- Whether a JSON value equals the string `k` (the comparisons
`message['type'] == '...'` of `handle_client`; a non-string value compares
unequal to every literal, without raising). -/
def JVal.isStr (v : JVal) (k : String) : Bool :=
  match v with
  | .jstr s => s == k
  | _ => false

/-- The value of the session's `client_cores` variable as it enters the
block-size arithmetic `BLOCK_SIZE_PER_CORE * client_cores`: Python
integers multiply as numbers, and so do booleans (`True == 1` in
Python); for any other stored value the arithmetic of the
`request_work` branch raises `TypeError` (directly for `None`, a dict,
or at the following addition for a string or a list). -/
def coresToInt : JVal → Option Int
  | .jnum n => some n
  | .jbool b => some (if b then 1 else 0)
  | _ => none

/-- One decoded message dispatched by the `if`/`elif` chain of
`handle_client`.  The result is `.ok (state, client_cores, sends,
broadcastInvoked)` when the handler returns normally, and `.error state`
when it raises an uncaught exception (e.g. `KeyError` on a missing
field), carrying the global state as already mutated at the raise point.
A message with no `type` key raises; an unrecognized `type` falls
through the chain and is silently ignored.  `register` stores whatever
`cores` value is present, raising only when the key is missing; a later
`request_work` from a session whose stored `cores` value is not numeric
raises `TypeError` in the block-size arithmetic — after the pop and the
`found` check, before any cursor mutation. -/
def handle_message (s : ServerState) (conn : Nat) (client_cores : JVal)
    (m : JVal) :
    Except ServerState (ServerState × JVal × List (Nat × Response) × Bool) :=
  match jlookup m "type" with
  | none => .error s
  | some t =>
    if t.isStr "register" then
      match jlookup m "cores" with
      | some v => .ok (register s conn v, v, [], false)
      | none => .error s
    else if t.isStr "request_work" then
      match coresToInt client_cores with
      | some k =>
          let r := request_work s conn k
          .ok (r.1, client_cores, [(conn, r.2)], false)
      | none =>
          let s1 := { s with assigned_work := popAssigned s.assigned_work conn }
          if s1.found then .ok (s1, client_cores, [(conn, .stop)], false)
          else .error s1
    else if t.isStr "found" then
      let s1 := { s with assigned_work := popAssigned s.assigned_work conn }
      if s1.found then .ok (s1, client_cores, notify_all_clients s1, true)
      else
        match jlookup m "number" with
        | some (.jnum n) =>
            let s2 := { s1 with found := true, found_number := some n }
            .ok (s2, client_cores, notify_all_clients s2, true)
        | _ => .error { s1 with found := true }
    else .ok (s, client_cores, [], false)

/-- The content of one complete frame pulled from the buffer: either
`json.loads` raised `JSONDecodeError`, or it produced a value. -/
inductive FrameInput where
  | decodeError
  | msg (m : JVal)

/-- Outcome of the session processing one complete frame. -/
structure SessionStep where
  state : ServerState
  cores : JVal
  sends : List (Nat × Response)
  broadcast : Bool
  connOpen : Bool

/-- Processing of one complete frame by `handle_client`: a
`JSONDecodeError` is logged and the frame dropped (`continue`), leaving
everything unchanged and the connection open; a decoded message runs
`handle_message`, and if that raises, control reaches the outer `except`,
the `finally` cleanup runs, and the connection is closed. -/
def process_frame (s : ServerState) (conn : Nat) (client_cores : JVal)
    (f : FrameInput) : SessionStep :=
  match f with
  | .decodeError =>
      { state := s, cores := client_cores, sends := [], broadcast := false
        connOpen := true }
  | .msg m =>
      match handle_message s conn client_cores m with
      | .ok (s1, cores1, sends, b) =>
          { state := s1, cores := cores1, sends := sends, broadcast := b
            connOpen := true }
      | .error s1 =>
          { state := disconnect_cleanup s1 conn, cores := client_cores
            sends := [], broadcast := false, connOpen := false }

/-- The buffering loop of `handle_client` (`while chr(10) in buffer:
split once, process`): the complete frames of a buffer, in order, and the
trailing partial frame left buffered. -/
def extractFrames : List Char → List (List Char) × List Char
  | [] => ([], [])
  | c :: rest =>
      let p := extractFrames rest
      if c = '\n' then ([] :: p.1, p.2)
      else
        match p.1 with
        | [] => ([], c :: p.2)
        | f :: fs => ((c :: f) :: fs, p.2)

/-- The text-level receive loop, after each chunk has already been
decoded to text: feed the decoded chunks through `buffer += data` and
the buffering loop, collecting every complete frame processed over the
whole session. -/
def processChunks : List (List Char) → List Char → List (List Char)
  | [], _ => []
  | c :: cs, buf =>
      let p := extractFrames (buf ++ c)
      p.1 ++ processChunks cs p.2

/-- Strict UTF-8 decoding, one byte per step, as the per-chunk
`conn.recv(1024).decode()` of `handle_client` performs it: `none` models
`UnicodeDecodeError` — an invalid lead or continuation byte, an
overlong, surrogate or out-of-range encoding, or a multibyte character
cut off at the end of the chunk.  The state is the number `k` of
continuation bytes still expected, the code-point bits `cp` accumulated
so far, and the valid range `[lo, hi]` of the next continuation byte
(narrowed after the lead bytes `E0`, `ED`, `F0`, `F4` to exclude
overlong, surrogate and out-of-range sequences). -/
def utf8DecodeAux : List Nat → Nat → Nat → Nat → Nat → Option (List Char)
  | [], 0, _, _, _ => some []
  | [], _ + 1, _, _, _ => none
  | b :: rest, 0, _, _, _ =>
      if b < 0x80 then
        (utf8DecodeAux rest 0 0 0 0).map (fun cs => Char.ofNat b :: cs)
      else if b < 0xC2 then none
      else if b < 0xE0 then
        utf8DecodeAux rest 1 (b - 0xC0) 0x80 0xBF
      else if b < 0xF0 then
        utf8DecodeAux rest 2 (b - 0xE0)
          (if b = 0xE0 then 0xA0 else 0x80)
          (if b = 0xED then 0x9F else 0xBF)
      else if b < 0xF5 then
        utf8DecodeAux rest 3 (b - 0xF0)
          (if b = 0xF0 then 0x90 else 0x80)
          (if b = 0xF4 then 0x8F else 0xBF)
      else none
  | b :: rest, 1, cp, lo, hi =>
      if lo ≤ b ∧ b ≤ hi then
        (utf8DecodeAux rest 0 0 0 0).map
          (fun cs => Char.ofNat (cp * 0x40 + (b - 0x80)) :: cs)
      else none
  | b :: rest, k + 2, cp, lo, hi =>
      if lo ≤ b ∧ b ≤ hi then
        utf8DecodeAux rest (k + 1) (cp * 0x40 + (b - 0x80)) 0x80 0xBF
      else none

/-- Strict UTF-8 decoding of one received chunk (`data.decode()`). -/
def utf8Decode (bytes : List Nat) : Option (List Char) :=
  utf8DecodeAux bytes 0 0 0 0

/-- The receive loop of `handle_client` over raw socket chunks: each
chunk is decoded with `data.decode()` and fed to the buffering loop; a
`UnicodeDecodeError` escapes to the outer `except` and closes the
session, leaving the remaining chunks unprocessed.  Returns the complete
frames processed, and whether the session survived all chunks without a
decode error. -/
def processByteChunks : List (List Nat) → List Char → List (List Char) × Bool
  | [], _ => ([], true)
  | ch :: cs, buf =>
      match utf8Decode ch with
      | none => ([], false)
      | some data =>
          let p := extractFrames (buf ++ data)
          let q := processByteChunks cs p.2
          (p.1 ++ q.1, q.2)

/-- One coordinator-level operation, as some session performs it. -/
inductive Op where
  | req (conn : Nat) (cores : Int)
  | fnd (conn : Nat) (number : Int)
  | reg (conn : Nat) (cores : JVal)
  | disc (conn : Nat)

/-- Apply one coordinator operation to the shared state. -/
def applyOp (s : ServerState) : Op → ServerState
  | .req conn cores => (request_work s conn cores).1
  | .fnd conn number => (record_found s conn number).1
  | .reg conn cores => register s conn cores
  | .disc conn => disconnect_cleanup s conn

/-- Apply a sequence of coordinator operations, left to right. -/
def applyOps (s : ServerState) (ops : List Op) : ServerState :=
  ops.foldl applyOp s

/-- Run a list of `request_work` calls `(conn, cores)`, collecting the
final state and the responses in order. -/
def runRequests (s : ServerState) :
    List (Nat × Int) → ServerState × List Response
  | [] => (s, [])
  | (c, k) :: rest =>
      let p := request_work s c k
      let q := runRequests p.1 rest
      (q.1, p.2 :: q.2)

/-- The blocks among a list of responses, in issue order. -/
def workBlocks (rs : List Response) : List WorkBlock :=
  rs.filterMap (fun r =>
    match r with
    | .work a b _ => some ⟨a, b⟩
    | _ => none)

/-- The blocks tile the range forward from cursor `c`: each block starts
exactly at the cursor, is nonempty, stays within `END_NUMBER`, and moves
the cursor to `end + 1`. -/
def chainFrom : Int → List WorkBlock → Prop
  | _, [] => True
  | c, b :: rest =>
      b.start = c ∧ b.start ≤ b.endN ∧ b.endN ≤ END_NUMBER ∧
        chainFrom (b.endN + 1) rest

/-- Cursor position after handing out the blocks in order. -/
def cursorAfter : Int → List WorkBlock → Int
  | c, [] => c
  | _, b :: rest => cursorAfter (b.endN + 1) rest

/-- Number of entries of `clients` owned by connection `conn`. -/
def countConn (conn : Nat) (l : List (Nat × JVal)) : Nat :=
  l.countP (fun c => decide (c.1 = conn))

/-- Number of `stop` frames addressed to `conn` in a list of sends. -/
def countStops (conn : Nat) (sends : List (Nat × Response)) : Nat :=
  sends.countP (fun p => decide (p.1 = conn ∧ p.2 = Response.stop))

/-- Process `n` consecutive `register` messages from the same
connection. -/
def iterRegister (n : Nat) (s : ServerState) (conn : Nat) (cores : JVal) :
    ServerState :=
  match n with
  | 0 => s
  | m + 1 => iterRegister m (register s conn cores) conn cores

/-- A well-formed `found` protocol message. -/
def foundMsg (n : Int) : JVal :=
  .jobj [("type", .jstr "found"), ("number", .jnum n)]

/-- State reached from startup by block allocations to connections 0 and
1 (one core each) followed by connection 0 disconnecting: the cursor is
rolled back to 0 while connection 1 still holds `[100000, 199999]`. -/
def twoAllocOneDrop : ServerState :=
  disconnect_cleanup (request_work (request_work initialState 0 1).1 1 1).1 0

/-- A state in which the target has already been reported found. -/
def foundState : ServerState :=
  { current_number := 0
    found := true
    found_number := some 7
    clients := [(0, JVal.jnum 1)]
    assigned_work := fun _ => none }

/-- A state whose cursor is already past the end of the range. -/
def exhaustedState : ServerState :=
  { current_number := END_NUMBER + 1
    found := false
    found_number := none
    clients := []
    assigned_work := fun _ => none }

/-- State reached from startup by one one-core allocation to
connection 5, which then holds `[0, 99999]` with the cursor at 100000. -/
def holderState : ServerState := (request_work initialState 5 1).1

/-- Helper equations for the branches of `request_work`: the `found`
branch replies `stop` and only pops `conn`'s entry. -/
theorem request_work_stop (s : ServerState) (conn : Nat) (k : Int)
    (hf : s.found = true) :
    request_work s conn k =
      ({ s with assigned_work := popAssigned s.assigned_work conn }, .stop) := by
  simp [request_work, hf]

/-- Exhausted branch of `request_work`: past `END_NUMBER` it replies
`no_work` and only pops `conn`'s entry. -/
theorem request_work_no_work (s : ServerState) (conn : Nat) (k : Int)
    (hf : s.found = false) (hgt : END_NUMBER < s.current_number) :
    request_work s conn k =
      ({ s with assigned_work := popAssigned s.assigned_work conn }, .no_work) := by
  simp [request_work, hf, hgt, not_le.2 hgt]

/-- Normal branch of `request_work`: hand out the next block and advance
the cursor. -/
theorem request_work_work (s : ServerState) (conn : Nat) (k : Int)
    (hf : s.found = false) (hle : s.current_number ≤ END_NUMBER) :
    request_work s conn k =
      ({ s with
          current_number :=
            min (s.current_number + BLOCK_SIZE_PER_CORE * k - 1) END_NUMBER + 1
          assigned_work := fun c =>
            if c = conn then
              some ⟨s.current_number,
                min (s.current_number + BLOCK_SIZE_PER_CORE * k - 1) END_NUMBER⟩
            else popAssigned s.assigned_work conn c },
        .work s.current_number
          (min (s.current_number + BLOCK_SIZE_PER_CORE * k - 1) END_NUMBER)
          TARGET_HASH) := by
  simp [request_work, hf, not_lt.2 hle]

/-- Disconnect cleanup when `conn` holds a block: the entry is removed,
the cursor is set to the block's start, and `conn` leaves `clients`. -/
theorem disconnect_cleanup_some (s : ServerState) (conn : Nat)
    (w : WorkBlock) (h : s.assigned_work conn = some w) :
    disconnect_cleanup s conn =
      { current_number := w.start
        found := s.found
        found_number := s.found_number
        clients := s.clients.filter (fun c => c.1 ≠ conn)
        assigned_work := popAssigned s.assigned_work conn } := by
  simp [disconnect_cleanup, h]

/-- `record_found` when `found` is still false: the flag flips. -/
theorem record_found_true (s : ServerState) (conn : Nat) (v : Int)
    (hf : s.found = false) :
    record_found s conn v =
      ({ s with
          assigned_work := popAssigned s.assigned_work conn
          found := true
          found_number := some v }, true) := by
  simp [record_found, hf]

/-- `record_found` when `found` is already true: a no-op beyond popping
the reporter's entry. -/
theorem record_found_false (s : ServerState) (conn : Nat) (v : Int)
    (hf : s.found = true) :
    record_found s conn v =
      ({ s with assigned_work := popAssigned s.assigned_work conn }, false) := by
  simp [record_found, hf]

/-- C1 (counterexample): in the reachable state `twoAllocOneDrop` the
cursor is 0 while connection 1 still holds `[100000, 199999]`; releasing
that block on disconnect sets the cursor to 100000, not
`min 0 100000 = 0` — the release moves the cursor forward, contradicting
the claimed `next_offset = min(next_offset, start)`. -/
theorem release_min_counterexample :
    twoAllocOneDrop.current_number = 0 ∧
    twoAllocOneDrop.assigned_work 1 = some ⟨100000, 199999⟩ ∧
    (disconnect_cleanup twoAllocOneDrop 1).current_number = 100000 ∧
    min twoAllocOneDrop.current_number (100000 : Int) = 0 :=
  ⟨by decide, by decide, by decide, by decide⟩

/-- C1 (amended): if `conn` holds block `w`, the release run on
disconnect removes the entry and sets the cursor to `w.start`
unconditionally — so when the cursor is below `w.start` at release time
it moves forward to `w.start`. -/
theorem release_sets_cursor_to_start (s : ServerState) (conn : Nat)
    (w : WorkBlock) (h : s.assigned_work conn = some w) :
    (disconnect_cleanup s conn).assigned_work conn = none ∧
    (disconnect_cleanup s conn).current_number = w.start := by
  rw [disconnect_cleanup_some s conn w h]
  exact ⟨by simp [popAssigned], rfl⟩

/-- Witness for the amended C1 at the concrete state `twoAllocOneDrop`. -/
theorem release_sets_cursor_to_start_witness :
    twoAllocOneDrop.assigned_work 1 = some ⟨100000, 199999⟩ ∧
    ((disconnect_cleanup twoAllocOneDrop 1).assigned_work 1 = none ∧
     (disconnect_cleanup twoAllocOneDrop 1).current_number = 100000) :=
  ⟨by decide,
   release_sets_cursor_to_start twoAllocOneDrop 1 ⟨100000, 199999⟩ (by decide)⟩

/-- C4: when `found` is false, `request_work` hands out the block
starting at the cursor with end `min(cursor + BLOCK_SIZE_PER_CORE * cores
- 1, END_NUMBER)`, advances the cursor to `end + 1`, records the block
for `conn` (clearing any prior entry) and leaves every other connection's
entry alone; when instead the cursor is past `END_NUMBER` it replies
`no_work` with the cursor unchanged. -/
theorem allocate_block_correct (s : ServerState) (conn : Nat) (cores : Int)
    (hf : s.found = false) :
    (s.current_number ≤ END_NUMBER →
      (request_work s conn cores).2 =
        .work s.current_number
          (min (s.current_number + BLOCK_SIZE_PER_CORE * cores - 1) END_NUMBER)
          TARGET_HASH ∧
      (request_work s conn cores).1.current_number =
        min (s.current_number + BLOCK_SIZE_PER_CORE * cores - 1) END_NUMBER + 1 ∧
      (request_work s conn cores).1.assigned_work conn =
        some ⟨s.current_number,
          min (s.current_number + BLOCK_SIZE_PER_CORE * cores - 1) END_NUMBER⟩ ∧
      (∀ c, c ≠ conn →
        (request_work s conn cores).1.assigned_work c = s.assigned_work c)) ∧
    (END_NUMBER < s.current_number →
      (request_work s conn cores).2 = .no_work ∧
      (request_work s conn cores).1.current_number = s.current_number ∧
      (request_work s conn cores).1.assigned_work conn = none ∧
      (∀ c, c ≠ conn →
        (request_work s conn cores).1.assigned_work c = s.assigned_work c)) := by
  constructor
  · intro hle
    rw [request_work_work s conn cores hf hle]
    refine ⟨rfl, rfl, by simp, fun c hc => by simp [popAssigned, hc]⟩
  · intro hgt
    rw [request_work_no_work s conn cores hf hgt]
    refine ⟨rfl, rfl, by simp [popAssigned], fun c hc => by simp [popAssigned, hc]⟩

/-- Witness for C4 at concrete states on both branches. -/
theorem allocate_block_correct_witness :
    initialState.found = false ∧
    (request_work initialState 0 1).2 = .work 0 99999 TARGET_HASH ∧
    exhaustedState.found = false ∧
    (request_work exhaustedState 2 1).2 = .no_work := by
  refine ⟨rfl, ?_, rfl, ?_⟩
  · exact (((allocate_block_correct initialState 0 1 rfl).1 (by decide)).1).trans
      (by decide)
  · exact ((allocate_block_correct exhaustedState 2 1 rfl).2 (by decide)).1

/-- C6: if `conn` disconnects while holding a block `w` of the range with
the cursor beyond `w.start` and the target not yet found, the next
`request_work` by any connection is answered with a block starting
exactly at `w.start` — the abandoned range is reassigned. -/
theorem reclaim_preserves_coverage (s : ServerState) (conn conn' : Nat)
    (cores : Int) (w : WorkBlock)
    (ha : s.assigned_work conn = some w)
    (_hgt : w.start < s.current_number)
    (hf : s.found = false)
    (hw : w.start ≤ END_NUMBER) :
    (request_work (disconnect_cleanup s conn) conn' cores).2 =
      .work w.start
        (min (w.start + BLOCK_SIZE_PER_CORE * cores - 1) END_NUMBER)
        TARGET_HASH := by
  have hf1 : (disconnect_cleanup s conn).found = false := by
    rw [disconnect_cleanup_some s conn w ha]; exact hf
  have hc1 : (disconnect_cleanup s conn).current_number = w.start := by
    rw [disconnect_cleanup_some s conn w ha]
  have hle : (disconnect_cleanup s conn).current_number ≤ END_NUMBER := by
    rw [hc1]; exact hw
  rw [request_work_work _ conn' cores hf1 hle]
  simp [hc1]

/-- Witness for C6 at the concrete state `holderState`. -/
theorem reclaim_preserves_coverage_witness :
    holderState.assigned_work 5 = some ⟨0, 99999⟩ ∧
    (0 : Int) < holderState.current_number ∧
    holderState.found = false ∧
    (0 : Int) ≤ END_NUMBER ∧
    (request_work (disconnect_cleanup holderState 5) 6 1).2 =
      .work 0 99999 TARGET_HASH := by
  refine ⟨by decide, by decide, by decide, by decide, ?_⟩
  exact (reclaim_preserves_coverage holderState 5 6 1 ⟨0, 99999⟩ (by decide)
    (by decide) (by decide) (by decide)).trans (by decide)

/-- C8: `record_found` removes `conn`'s outstanding block without
rollback: the cursor, the client list, and every other connection's
assignment entry are left unchanged, whatever the prior value of
`found`. -/
theorem record_found_frame (s : ServerState) (conn : Nat) (v : Int) :
    (record_found s conn v).1.assigned_work conn = none ∧
    (record_found s conn v).1.current_number = s.current_number ∧
    (record_found s conn v).1.clients = s.clients ∧
    (∀ c, c ≠ conn →
      (record_found s conn v).1.assigned_work c = s.assigned_work c) := by
  cases hf : s.found
  · rw [record_found_true s conn v hf]
    exact ⟨by simp [popAssigned], rfl, rfl, fun c hc => by simp [popAssigned, hc]⟩
  · rw [record_found_false s conn v hf]
    exact ⟨by simp [popAssigned], rfl, rfl, fun c hc => by simp [popAssigned, hc]⟩

/-- Witness for C8 at the concrete state `holderState`. -/
theorem record_found_frame_witness :
    (record_found holderState 5 42).1.assigned_work 5 = none ∧
    (record_found holderState 5 42).1.current_number =
      holderState.current_number ∧
    (record_found holderState 5 42).1.assigned_work 6 =
      holderState.assigned_work 6 :=
  ⟨(record_found_frame holderState 5 42).1,
   (record_found_frame holderState 5 42).2.1,
   (record_found_frame holderState 5 42).2.2.2 6 (by decide)⟩

/-- Every single coordinator operation preserves a true `found` flag and
the recorded `found_number`. -/
theorem applyOp_preserves_found (s : ServerState) (o : Op)
    (h : s.found = true) :
    (applyOp s o).found = true ∧ (applyOp s o).found_number = s.found_number := by
  cases o with
  | req conn cores =>
      simp only [applyOp]
      rw [request_work_stop s conn cores h]
      exact ⟨h, rfl⟩
  | fnd conn number =>
      simp only [applyOp]
      rw [record_found_false s conn number h]
      exact ⟨h, rfl⟩
  | reg conn cores =>
      exact ⟨h, rfl⟩
  | disc conn =>
      simp only [applyOp]
      unfold disconnect_cleanup
      cases hw : s.assigned_work conn <;> simp [h]

/-- Every sequence of coordinator operations preserves a true `found`
flag and the recorded `found_number`. -/
theorem applyOps_preserves_found (s : ServerState) (ops : List Op)
    (h : s.found = true) :
    (applyOps s ops).found = true ∧
    (applyOps s ops).found_number = s.found_number := by
  induction ops generalizing s with
  | nil => exact ⟨h, rfl⟩
  | cons o rest ih =>
      have h1 := applyOp_preserves_found s o h
      have h2 := ih (applyOp s o) h1.1
      exact ⟨h2.1, h2.2.trans h1.2⟩

/-- C2: once `record_found` flips `found` to true for value `v`, then
after any further sequence of coordinator operations `is_found` still
reads true, `found_number` is still `v`, every further `record_found`
call by any connection returns false and leaves `found_number` at `v`,
and every further `request_work` call is answered with `stop`. -/
theorem found_monotone (s : ServerState) (conn : Nat) (v : Int)
    (hf : s.found = false) :
    (record_found s conn v).2 = true ∧
    ∀ ops : List Op,
      is_found (applyOps (record_found s conn v).1 ops) = true ∧
      (applyOps (record_found s conn v).1 ops).found_number = some v ∧
      (∀ c n,
        (record_found (applyOps (record_found s conn v).1 ops) c n).2 = false ∧
        (record_found (applyOps (record_found s conn v).1 ops) c n).1.found_number
          = some v) ∧
      (∀ c k,
        (request_work (applyOps (record_found s conn v).1 ops) c k).2 =
          Response.stop) := by
  have hrec := record_found_true s conn v hf
  refine ⟨by rw [hrec], fun ops => ?_⟩
  have h0 : (record_found s conn v).1.found = true := by rw [hrec]
  have hn0 : (record_found s conn v).1.found_number = some v := by rw [hrec]
  have h := applyOps_preserves_found (record_found s conn v).1 ops h0
  refine ⟨h.1, h.2.trans hn0, fun c n => ?_, fun c k => ?_⟩
  · rw [record_found_false _ c n h.1]
    exact ⟨rfl, h.2.trans hn0⟩
  · rw [request_work_stop _ c k h.1]

/-- Witness for C2 from the startup state. -/
theorem found_monotone_witness :
    initialState.found = false ∧
    (record_found initialState 0 42).2 = true ∧
    is_found (applyOps (record_found initialState 0 42).1
      [.req 1 1, .disc 1]) = true :=
  ⟨rfl, (found_monotone initialState 0 42 rfl).1,
   ((found_monotone initialState 0 42 rfl).2 [.req 1 1, .disc 1]).1⟩

/-- The `found` branch of `handle_message` on a well-formed `found`
message, written as one equation. -/
theorem handle_message_foundMsg (s : ServerState) (conn : Nat)
    (cores : JVal) (n : Int) :
    handle_message s conn cores (foundMsg n) =
      if s.found then
        .ok ({ s with assigned_work := popAssigned s.assigned_work conn },
          cores,
          notify_all_clients
            { s with assigned_work := popAssigned s.assigned_work conn },
          true)
      else
        .ok ({ s with
                assigned_work := popAssigned s.assigned_work conn
                found := true
                found_number := some n },
          cores,
          notify_all_clients
            { s with
                assigned_work := popAssigned s.assigned_work conn
                found := true
                found_number := some n },
          true) := rfl

/-- C5 (counterexample): in a state where `found` is already true, a
duplicate `found` message still triggers the stop broadcast even though
`record_found` reports no flip — the code invokes `notify_all_clients`
on every `found` message, not only on a successful `record_found`. -/
theorem broadcast_on_duplicate_found :
    (record_found foundState 0 42).2 = false ∧
    (process_frame foundState 0 (.jnum 1) (.msg (foundMsg 42))).broadcast = true :=
  ⟨by decide, by decide⟩

/-- C5 (amended): the session triggers the stop broadcast on every
`found` message it processes, whether or not `record_found` flipped
`found`; a duplicate or late report triggers it again (harmless, as the
broadcast is idempotent-safe). -/
theorem found_always_broadcasts (s : ServerState) (conn : Nat)
    (cores : JVal) (n : Int) :
    (process_frame s conn cores (.msg (foundMsg n))).broadcast = true := by
  simp only [process_frame]
  rw [handle_message_foundMsg]
  cases hf : s.found <;> simp [hf]

/-- One `register` message adds one entry for `conn` to `clients`. -/
theorem countConn_register (s : ServerState) (conn : Nat) (cores : JVal) :
    countConn conn (register s conn cores).clients =
      countConn conn s.clients + 1 := by
  simp [countConn, register, List.countP_append, List.countP_cons]

/-- The stop broadcast sends to `conn` exactly one `stop` frame per entry
of `clients` owned by `conn`. -/
theorem countStops_notify (s : ServerState) (conn : Nat) :
    countStops conn (notify_all_clients s) = countConn conn s.clients := by
  simp only [countStops, notify_all_clients, countConn, List.countP_map]
  apply List.countP_congr
  intro c _
  simp

/-- Iterated registration adds one entry per message. -/
theorem countConn_iterRegister (n : Nat) (s : ServerState) (conn : Nat)
    (cores : JVal) :
    countConn conn (iterRegister n s conn cores).clients =
      countConn conn s.clients + n := by
  induction n generalizing s with
  | zero => rfl
  | succ m ih =>
      simp only [iterRegister]
      rw [ih (register s conn cores), countConn_register]
      omega

/-- C10: a connection with no prior entries that sends `register` n times
is present n times in `clients`, and a subsequent stop broadcast sends n
`stop` frames to that connection. -/
theorem register_duplicates (s : ServerState) (conn : Nat) (cores : JVal)
    (n : Nat) (h0 : countConn conn s.clients = 0) :
    countConn conn (iterRegister n s conn cores).clients = n ∧
    countStops conn (notify_all_clients (iterRegister n s conn cores)) = n := by
  have h := countConn_iterRegister n s conn cores
  rw [h0] at h
  refine ⟨by omega, ?_⟩
  rw [countStops_notify]
  omega

/-- Witness for C10: two registrations from the startup state. -/
theorem register_duplicates_witness :
    countConn 3 initialState.clients = 0 ∧
    (countConn 3 (iterRegister 2 initialState 3 (.jnum 4)).clients = 2 ∧
     countStops 3 (notify_all_clients (iterRegister 2 initialState 3 (.jnum 4))) = 2) :=
  ⟨rfl, register_duplicates initialState 3 (.jnum 4) 2 rfl⟩

/-- Cons-step equation of the buffering loop. -/
theorem extractFrames_cons (c : Char) (rest : List Char) :
    extractFrames (c :: rest) =
      if c = '\n' then
        ([] :: (extractFrames rest).1, (extractFrames rest).2)
      else
        match (extractFrames rest).1 with
        | [] => ([], c :: (extractFrames rest).2)
        | f :: fs => ((c :: f) :: fs, (extractFrames rest).2) := rfl

/-- A buffer without a newline yields no frame and stays buffered. -/
theorem extractFrames_no_newline (buf : List Char) (h : '\n' ∉ buf) :
    extractFrames buf = ([], buf) := by
  induction buf with
  | nil => rfl
  | cons c rest ih =>
      have hc : ¬c = '\n' := fun hcn => h (by simp [hcn])
      have hr : '\n' ∉ rest := fun hm => h (List.mem_cons_of_mem c hm)
      rw [extractFrames_cons, if_neg hc, ih hr]

/-- The partial frame left by the buffering loop holds no newline. -/
theorem extractFrames_rem_no_newline (buf : List Char) :
    '\n' ∉ (extractFrames buf).2 := by
  induction buf with
  | nil => simp [extractFrames]
  | cons c rest ih =>
      rw [extractFrames_cons]
      by_cases hc : c = '\n'
      · rw [if_pos hc]; exact ih
      · rw [if_neg hc]
        cases hp : (extractFrames rest).1 with
        | nil =>
            intro hmem
            rcases List.mem_cons.mp hmem with h | h
            · exact hc h.symm
            · exact ih h
        | cons f fs => exact ih

/-- The buffering loop over a concatenation: the frames of `a ++ b` are
the frames of `a` followed by the frames of `a`'s leftover prepended to
`b`, and the leftovers agree. -/
theorem extractFrames_append (a b : List Char) :
    extractFrames (a ++ b) =
      ((extractFrames a).1 ++ (extractFrames ((extractFrames a).2 ++ b)).1,
       (extractFrames ((extractFrames a).2 ++ b)).2) := by
  induction a with
  | nil => simp [extractFrames]
  | cons c a' ih =>
      rw [List.cons_append, extractFrames_cons, extractFrames_cons c a', ih]
      by_cases hc : c = '\n'
      · rw [if_pos hc, if_pos hc]
        simp
      · rw [if_neg hc, if_neg hc]
        cases hp : (extractFrames a').1 with
        | nil =>
            rw [List.nil_append, List.cons_append, extractFrames_cons,
              if_neg hc]
            cases hq : (extractFrames ((extractFrames a').2 ++ b)).1 <;> simp
        | cons f fs => simp

/-- Feeding chunks through the buffering loop from a newline-free buffer
processes exactly the complete frames of the concatenated stream. -/
theorem processChunks_join (chunks : List (List Char)) (buf : List Char)
    (h : '\n' ∉ buf) :
    processChunks chunks buf = (extractFrames (buf ++ chunks.flatten)).1 := by
  induction chunks generalizing buf with
  | nil =>
      simp [processChunks, extractFrames_no_newline buf h]
  | cons c cs ih =>
      simp only [processChunks, List.flatten_cons]
      rw [ih (extractFrames (buf ++ c)).2 (extractFrames_rem_no_newline _),
        ← List.append_assoc, extractFrames_append (buf ++ c) cs.flatten]

/-- C9: frame decoding is invariant to chunk boundaries: any chunking of
the received byte stream is processed as exactly the complete
newline-terminated frames of the concatenated stream (partial messages
stay buffered until their terminator arrives), so two chunkings of the
same stream yield the same frame sequence, each frame processed once. -/
theorem framing_chunk_invariant (chunks1 chunks2 : List (List Char))
    (h : chunks1.flatten = chunks2.flatten) :
    processChunks chunks1 [] = (extractFrames chunks1.flatten).1 ∧
    processChunks chunks1 [] = processChunks chunks2 [] := by
  have h1 := processChunks_join chunks1 [] (by simp)
  have h2 := processChunks_join chunks2 [] (by simp)
  simp only [List.nil_append] at h1 h2
  exact ⟨h1, by rw [h1, h2, h]⟩

/-- Witness for C9: the stream containing frames made of the letters a
and bc, split at two different chunk boundaries. -/
theorem framing_chunk_invariant_witness :
    ([['a', '\n', 'b'], ['c', '\n']] : List (List Char)).flatten =
      ([['a'], ['\n'], ['b', 'c', '\n']] : List (List Char)).flatten ∧
    (processChunks [['a', '\n', 'b'], ['c', '\n']] [] =
      (extractFrames ([['a', '\n', 'b'], ['c', '\n']] :
        List (List Char)).flatten).1 ∧
     processChunks [['a', '\n', 'b'], ['c', '\n']] [] =
      processChunks [['a'], ['\n'], ['b', 'c', '\n']] []) :=
  ⟨by decide,
   framing_chunk_invariant [['a', '\n', 'b'], ['c', '\n']]
     [['a'], ['\n'], ['b', 'c', '\n']] (by decide)⟩

/-- Every block of a chain starts at or after the initial cursor. -/
theorem chainFrom_le_start (c : Int) (bs : List WorkBlock)
    (h : chainFrom c bs) : ∀ b ∈ bs, c ≤ b.start := by
  induction bs generalizing c with
  | nil => intro b hb; cases hb
  | cons x xs ih =>
      obtain ⟨hx, hxe, _, hrest⟩ := h
      intro b hb
      rcases List.mem_cons.mp hb with rfl | hb'
      · omega
      · have := ih (x.endN + 1) hrest b hb'
        omega

/-- Chained blocks are strictly ordered, hence pairwise disjoint. -/
theorem chainFrom_pairwise (c : Int) (bs : List WorkBlock)
    (h : chainFrom c bs) :
    bs.Pairwise (fun a b => a.endN < b.start) := by
  induction bs generalizing c with
  | nil => exact List.Pairwise.nil
  | cons x xs ih =>
      obtain ⟨hx, hxe, hxE, hrest⟩ := h
      refine List.Pairwise.cons ?_ (ih (x.endN + 1) hrest)
      intro b hb
      have := chainFrom_le_start (x.endN + 1) xs hrest b hb
      omega

/-- A `work` response contributes its block. -/
theorem workBlocks_cons_work (a b : Int) (h : String) (l : List Response) :
    workBlocks (Response.work a b h :: l) = ⟨a, b⟩ :: workBlocks l := rfl

/-- A `no_work` response contributes no block. -/
theorem workBlocks_cons_no_work (l : List Response) :
    workBlocks (Response.no_work :: l) = workBlocks l := rfl

/-- Once the cursor is past `END_NUMBER` (and the target not found),
further requests issue no blocks and leave the cursor in place. -/
theorem runRequests_exhausted (s : ServerState) (reqs : List (Nat × Int))
    (hf : s.found = false) (hgt : END_NUMBER < s.current_number) :
    workBlocks (runRequests s reqs).2 = [] ∧
    (runRequests s reqs).1.current_number = s.current_number := by
  induction reqs generalizing s with
  | nil => exact ⟨rfl, rfl⟩
  | cons r rest ih =>
      obtain ⟨c, k⟩ := r
      simp only [runRequests]
      rw [request_work_no_work s c k hf hgt]
      have h2 := ih { s with assigned_work := popAssigned s.assigned_work c }
        hf hgt
      exact ⟨by simpa [workBlocks] using h2.1, h2.2⟩

/-- Main invariant of a request run: from a not-found state whose cursor
is at most `END_NUMBER + 1`, the issued blocks chain from the cursor,
and if `no_work` was ever answered the cursor after the issued blocks is
exactly `END_NUMBER + 1`. -/
theorem runRequests_chain (s : ServerState) (reqs : List (Nat × Int))
    (hf : s.found = false) (hle : s.current_number ≤ END_NUMBER + 1)
    (hc : ∀ r ∈ reqs, (1 : Int) ≤ r.2) :
    chainFrom s.current_number (workBlocks (runRequests s reqs).2) ∧
    (Response.no_work ∈ (runRequests s reqs).2 →
      cursorAfter s.current_number (workBlocks (runRequests s reqs).2) =
        END_NUMBER + 1) := by
  induction reqs generalizing s with
  | nil =>
      exact ⟨trivial, fun h => absurd h (List.not_mem_nil _)⟩
  | cons r rest ih =>
      obtain ⟨c, k⟩ := r
      have hk : (1 : Int) ≤ k := hc (c, k) (List.mem_cons_self _ _)
      have hrest : ∀ r ∈ rest, (1 : Int) ≤ r.2 :=
        fun r hr => hc r (List.mem_cons_of_mem _ hr)
      simp only [runRequests]
      by_cases hgt : END_NUMBER < s.current_number
      · rw [request_work_no_work s c k hf hgt]
        have hex := runRequests_exhausted
          { s with assigned_work := popAssigned s.assigned_work c } rest hf hgt
        have hcur : s.current_number = END_NUMBER + 1 := by omega
        dsimp only
        constructor
        · rw [workBlocks_cons_no_work, hex.1]
          trivial
        · intro _
          rw [workBlocks_cons_no_work, hex.1]
          exact hcur
      · push_neg at hgt
        rw [request_work_work s c k hf hgt]
        have hBk : (1 : Int) ≤ BLOCK_SIZE_PER_CORE * k := by
          have hB : BLOCK_SIZE_PER_CORE = (100000 : Int) := rfl
          rw [hB]
          omega
        have hse : s.current_number ≤
            min (s.current_number + BLOCK_SIZE_PER_CORE * k - 1) END_NUMBER :=
          le_min (by omega) hgt
        have heE :
            min (s.current_number + BLOCK_SIZE_PER_CORE * k - 1) END_NUMBER ≤
              END_NUMBER := min_le_right _ _
        have ih' := ih
          { s with
              current_number :=
                min (s.current_number + BLOCK_SIZE_PER_CORE * k - 1)
                  END_NUMBER + 1
              assigned_work := fun x =>
                if x = c then
                  some ⟨s.current_number,
                    min (s.current_number + BLOCK_SIZE_PER_CORE * k - 1)
                      END_NUMBER⟩
                else popAssigned s.assigned_work c x }
          hf (by dsimp only; omega) hrest
        dsimp only
        constructor
        · rw [workBlocks_cons_work]
          exact ⟨rfl, hse, heE, ih'.1⟩
        · intro hmem
          rcases List.mem_cons.mp hmem with habs | hmem'
          · exact absurd habs (by simp)
          · rw [workBlocks_cons_work]
            exact ih'.2 hmem'

/-- C3: for every sequence of `request_work` calls from startup (no
disconnects or releases, every declared core count at least 1), the
issued blocks chain consecutively from 0 — each next block starts right
after the previous one, all within `[0, END_NUMBER]` — they are pairwise
disjoint, and once `no_work` has been answered the issued blocks cover
exactly `[0, END_NUMBER]` (the cursor after them is `END_NUMBER + 1`). -/
theorem allocation_disjoint_tiling (reqs : List (Nat × Int))
    (hc : ∀ r ∈ reqs, (1 : Int) ≤ r.2) :
    chainFrom START_NUMBER (workBlocks (runRequests initialState reqs).2) ∧
    (workBlocks (runRequests initialState reqs).2).Pairwise
      (fun a b => a.endN < b.start) ∧
    (Response.no_work ∈ (runRequests initialState reqs).2 →
      cursorAfter START_NUMBER
        (workBlocks (runRequests initialState reqs).2) = END_NUMBER + 1) := by
  have h := runRequests_chain initialState reqs rfl (by decide) hc
  exact ⟨h.1, chainFrom_pairwise _ _ h.1, h.2⟩

/-- Witness for C3: two allocations with 1 and 2 cores. -/
theorem allocation_disjoint_tiling_witness :
    (∀ r ∈ ([(0, 1), (1, 2)] : List (Nat × Int)), (1 : Int) ≤ r.2) ∧
    chainFrom START_NUMBER
      (workBlocks (runRequests initialState [(0, 1), (1, 2)]).2) :=
  ⟨by decide, (allocation_disjoint_tiling [(0, 1), (1, 2)] (by decide)).1⟩

/-- When no continuation byte is pending, the decoder ignores the
accumulated state. -/
theorem utf8DecodeAux_zero (x : List Nat) (cp lo hi : Nat) :
    utf8DecodeAux x 0 cp lo hi = utf8DecodeAux x 0 0 0 0 := by
  cases x <;> rfl

/-- Decoding distributes over concatenation at a valid stopping point:
if the decoder consumes `a` completely from state `(k, cp, lo, hi)`, it
consumes `a ++ b` by first consuming `a` and then continuing with `b`
from the initial state (UTF-8 is self-synchronizing at character
boundaries). -/
theorem utf8DecodeAux_append (a : List Nat) :
    ∀ (k cp lo hi : Nat) (b : List Nat) (da : List Char),
      utf8DecodeAux a k cp lo hi = some da →
      utf8DecodeAux (a ++ b) k cp lo hi =
        (utf8DecodeAux b 0 0 0 0).map (fun cs => da ++ cs) := by
  induction a with
  | nil =>
      intro k cp lo hi b da h
      rcases k with _ | k
      · simp only [utf8DecodeAux, Option.some.injEq] at h
        subst h
        simp only [List.nil_append]
        rw [utf8DecodeAux_zero]
        cases hub : utf8DecodeAux b 0 0 0 0 <;> simp [hub]
      · simp only [utf8DecodeAux] at h
        exact Option.noConfusion h
  | cons b0 rest ih =>
      intro k cp lo hi b da h
      rcases k with _ | _ | k
      · by_cases h1 : b0 < 0x80
        · simp only [List.cons_append, List.append_eq, utf8DecodeAux, h1,
            if_true, ite_true] at h ⊢
          obtain ⟨dr, hdr, hda⟩ := Option.map_eq_some'.mp h
          subst hda
          rw [ih 0 0 0 0 b dr hdr]
          cases hub : utf8DecodeAux b 0 0 0 0 <;> simp
        · by_cases h2 : b0 < 0xC2
          · simp only [utf8DecodeAux, h1, h2, if_true, ite_true, if_false,
              ite_false] at h
            exact Option.noConfusion h
          · by_cases h3 : b0 < 0xE0
            · simp only [List.cons_append, List.append_eq, utf8DecodeAux,
                h1, h2, h3, if_true, ite_true, if_false, ite_false] at h ⊢
              exact ih _ _ _ _ b da h
            · by_cases h4 : b0 < 0xF0
              · simp only [List.cons_append, List.append_eq, utf8DecodeAux,
                  h1, h2, h3, h4, if_true, ite_true, if_false,
                  ite_false] at h ⊢
                exact ih _ _ _ _ b da h
              · by_cases h5 : b0 < 0xF5
                · simp only [List.cons_append, List.append_eq,
                    utf8DecodeAux, h1, h2, h3, h4, h5, if_true, ite_true,
                    if_false, ite_false] at h ⊢
                  exact ih _ _ _ _ b da h
                · simp only [utf8DecodeAux, h1, h2, h3, h4, h5, if_true,
                    ite_true, if_false, ite_false] at h
                  exact Option.noConfusion h
      · by_cases hc : lo ≤ b0 ∧ b0 ≤ hi
        · simp only [List.cons_append, List.append_eq, utf8DecodeAux, hc,
            if_true, ite_true] at h ⊢
          obtain ⟨dr, hdr, hda⟩ := Option.map_eq_some'.mp h
          subst hda
          rw [ih 0 0 0 0 b dr hdr]
          cases hub : utf8DecodeAux b 0 0 0 0 <;> simp
        · simp only [utf8DecodeAux, hc, if_false, ite_false] at h
          exact Option.noConfusion h
      · by_cases hc : lo ≤ b0 ∧ b0 ≤ hi
        · simp only [List.cons_append, List.append_eq, utf8DecodeAux, hc,
            if_true, ite_true] at h ⊢
          exact ih _ _ _ _ b da h
        · simp only [utf8DecodeAux, hc, if_false, ite_false] at h
          exact Option.noConfusion h

/-- Decoding distributes over concatenation of complete valid chunks. -/
theorem utf8Decode_append (a b : List Nat) (da : List Char)
    (h : utf8Decode a = some da) :
    utf8Decode (a ++ b) = (utf8Decode b).map (fun cs => da ++ cs) :=
  utf8DecodeAux_append a 0 0 0 0 b da h

/-- If every chunk decodes on its own, the concatenated byte stream
decodes to the concatenation of the per-chunk decodings. -/
theorem utf8Decode_flatten (chunks : List (List Nat))
    (h : ∀ c ∈ chunks, (utf8Decode c).isSome) :
    utf8Decode chunks.flatten =
      some (chunks.map (fun c => (utf8Decode c).getD [])).flatten := by
  induction chunks with
  | nil => rfl
  | cons ch cs ih =>
      obtain ⟨d, hd⟩ := Option.isSome_iff_exists.mp (h ch (List.mem_cons_self _ _))
      have ihr := ih (fun c hc => h c (List.mem_cons_of_mem _ hc))
      simp only [List.flatten_cons, List.map_cons]
      rw [utf8Decode_append ch cs.flatten d hd, ihr, hd]
      simp

/-- When every chunk decodes on its own, the byte-level receive loop
survives and processes exactly what the text-level loop processes on the
decoded chunks. -/
theorem processByteChunks_ok (chunks : List (List Nat)) (buf : List Char)
    (h : ∀ c ∈ chunks, (utf8Decode c).isSome) :
    processByteChunks chunks buf =
      (processChunks (chunks.map (fun c => (utf8Decode c).getD [])) buf,
        true) := by
  induction chunks generalizing buf with
  | nil => rfl
  | cons ch cs ih =>
      obtain ⟨d, hd⟩ := Option.isSome_iff_exists.mp (h ch (List.mem_cons_self _ _))
      simp only [processByteChunks, processChunks, List.map_cons, hd,
        Option.getD_some]
      rw [ih _ (fun c hc => h c (List.mem_cons_of_mem _ hc))]

/-- C9 (amended): for every byte stream and every chunking of it in
which no chunk boundary splits a multibyte UTF-8 character (each chunk
decodes on its own, as each is decoded independently), the session
survives and processes exactly the complete line-feed-terminated frames
of the decoded concatenated stream — so any two such chunkings of the
same byte stream are processed as the same frame sequence, each complete
frame once, with partial messages buffered until their terminator. -/
theorem byte_framing_invariant (chunks1 chunks2 : List (List Nat))
    (hjoin : chunks1.flatten = chunks2.flatten)
    (h1 : ∀ c ∈ chunks1, (utf8Decode c).isSome)
    (h2 : ∀ c ∈ chunks2, (utf8Decode c).isSome) :
    (processByteChunks chunks1 []).2 = true ∧
    (processByteChunks chunks2 []).2 = true ∧
    (processByteChunks chunks1 []).1 =
      (extractFrames ((utf8Decode chunks1.flatten).getD [])).1 ∧
    (processByteChunks chunks1 []).1 = (processByteChunks chunks2 []).1 := by
  have e1 := processByteChunks_ok chunks1 [] h1
  have e2 := processByteChunks_ok chunks2 [] h2
  have p1 := processChunks_join (chunks1.map (fun c => (utf8Decode c).getD []))
    [] (by simp)
  have p2 := processChunks_join (chunks2.map (fun c => (utf8Decode c).getD []))
    [] (by simp)
  simp only [List.nil_append] at p1 p2
  have f1 := utf8Decode_flatten chunks1 h1
  have f2 := utf8Decode_flatten chunks2 h2
  have hd : (chunks1.map (fun c => (utf8Decode c).getD [])).flatten =
      (chunks2.map (fun c => (utf8Decode c).getD [])).flatten := by
    have := (f1.symm.trans (by rw [hjoin])).trans f2
    exact Option.some.inj this
  refine ⟨by rw [e1], by rw [e2], ?_, ?_⟩
  · rw [e1, f1]
    simp only [Option.getD_some]
    exact p1
  · rw [e1, e2]
    simp only []
    rw [p1, p2, hd]

/-- C9 (counterexample): the same three-byte stream — a two-byte UTF-8
character followed by a line feed — processed as one chunk yields one
complete frame, but chunked at the boundary inside the character the
first chunk fails to decode, the session closes, and no frame is
processed: frame processing is not invariant over arbitrary byte-level
chunkings. -/
theorem byte_chunking_counterexample :
    ([[0xC3, 0xA9, 0x0A]] : List (List Nat)).flatten =
      ([[0xC3], [0xA9, 0x0A]] : List (List Nat)).flatten ∧
    (processByteChunks [[0xC3, 0xA9, 0x0A]] []).2 = true ∧
    (processByteChunks [[0xC3], [0xA9, 0x0A]] []).2 = false ∧
    (processByteChunks [[0xC3, 0xA9, 0x0A]] []).1 ≠
      (processByteChunks [[0xC3], [0xA9, 0x0A]] []).1 :=
  ⟨by decide, by decide, by decide, by decide⟩

/-- Witness for the amended C9: the same byte stream under two chunkings
that both respect character boundaries. -/
theorem byte_framing_invariant_witness :
    ([[0xC3, 0xA9, 0x0A]] : List (List Nat)).flatten =
      ([[0xC3, 0xA9], [0x0A]] : List (List Nat)).flatten ∧
    (∀ c ∈ ([[0xC3, 0xA9, 0x0A]] : List (List Nat)), (utf8Decode c).isSome) ∧
    (∀ c ∈ ([[0xC3, 0xA9], [0x0A]] : List (List Nat)), (utf8Decode c).isSome) ∧
    ((processByteChunks [[0xC3, 0xA9, 0x0A]] []).2 = true ∧
     (processByteChunks [[0xC3, 0xA9], [0x0A]] []).2 = true ∧
     (processByteChunks [[0xC3, 0xA9, 0x0A]] []).1 =
       (extractFrames
         ((utf8Decode ([[0xC3, 0xA9, 0x0A]] :
           List (List Nat)).flatten).getD [])).1 ∧
     (processByteChunks [[0xC3, 0xA9, 0x0A]] []).1 =
       (processByteChunks [[0xC3, 0xA9], [0x0A]] []).1) :=
  ⟨by decide, by decide, by decide,
   byte_framing_invariant [[0xC3, 0xA9, 0x0A]] [[0xC3, 0xA9], [0x0A]]
     (by decide) (by decide) (by decide)⟩

